import Mathlib

/-!
Verification of the reshaping core of `hytek-parser` (`src/hytek_parser/cli.py`).

The Python code manipulates JSON-like values: `None`, ints, strings, booleans,
lists, and string-keyed dicts.  We shallowly embed those values as the
inductive type `Val` below; a Python dict is an association list
`List (String × Val)` in insertion order with unique keys (Python 3.7+ dicts
preserve insertion order).  Strings are modelled over their character
sequences; only ASCII behaviour of `str.isdigit` / `int()` is modelled, which
is the fragment exercised by event numbers and meet ids.
-/

inductive Val where
  | none : Val
  | int (n : Int) : Val
  | str (s : String) : Val
  | bool (b : Bool) : Val
  | list (xs : List Val) : Val
  | dict (kvs : List (String × Val)) : Val

abbrev Dict := List (String × Val)

/-- Python `d.get(k, dfl)`: the stored value when the key is present
(even if that value is `None`), otherwise the default. -/
def dgetD (d : Dict) (k : String) (dfl : Val) : Val :=
  match List.lookup k d with
  | some v => v
  | Option.none => dfl

/-- Python `d.get(k)`: `None` default. -/
def dget (d : Dict) (k : String) : Val :=
  dgetD d k Val.none

/-- Python truthiness of a value (`bool(v)` / `if v:`). -/
def pyTruthy : Val → Bool
  | Val.none => false
  | Val.int n => n != 0
  | Val.str s => !(s == "")
  | Val.bool b => b
  | Val.list xs => !xs.isEmpty
  | Val.dict kvs => !kvs.isEmpty

/-- Python `a or b`. -/
def pyOr (a b : Val) : Val :=
  if pyTruthy a then a else b

/-- View a value as a dict, as when Python iterates `v.items()` or copies
`dict(v)`.  (On a non-dict Python raises; the claims only concern trees
matching the input contract, where this branch is never taken.) -/
def asDict : Val → Dict
  | Val.dict kvs => kvs
  | _ => []

/-- View a value as a list, as when Python iterates it. -/
def asList : Val → List Val
  | Val.list xs => xs
  | _ => []

/-- Python `d[k] = v`: overwrite in place when the key exists (keeping its
position), otherwise append at the end. -/
def setKey (d : Dict) (k : String) (v : Val) : Dict :=
  if d.any (fun kv => kv.1 == k) then
    d.map (fun kv => if kv.1 == k then (kv.1, v) else kv)
  else
    d ++ [(k, v)]

/-- Python `d.pop(k, None)`'s effect on the dict. -/
def popKey (d : Dict) (k : String) : Dict :=
  d.filter (fun kv => !(kv.1 == k))

/-- Python `str.isdigit` restricted to ASCII: nonempty and all chars 0-9. -/
def pyIsDigit (s : String) : Bool :=
  !(s == "") && s.data.all Char.isDigit

/-- Value of an all-digit string, as computed by Python `int` on it. -/
def digitsToNat (s : String) : Nat :=
  s.data.foldl (fun a c => a * 10 + (c.toNat - 48)) 0

/-- ASCII whitespace stripped by Python `int` before parsing. -/
def isPySpace (c : Char) : Bool :=
  c == ' ' || c == '\t' || c == '\n' || c == '\r' || c == '\x0b' || c == '\x0c'

/-- After the first digit, Python `int` accepts further digits with single
underscores allowed between two digits. -/
def digitsVal : List Char → Nat → Option Nat
  | [], acc => some acc
  | c :: cs, acc =>
    if c.isDigit then digitsVal cs (acc * 10 + (c.toNat - 48))
    else if c == '_' then
      match cs with
      | c2 :: cs2 =>
        if c2.isDigit then digitsVal cs2 ((acc * 10 + (c2.toNat - 48)))
        else Option.none
      | [] => Option.none
    else Option.none

/-- The digit body must start with a digit. -/
def digitsBody : List Char → Option Nat
  | [] => Option.none
  | c :: cs => if c.isDigit then digitsVal cs (c.toNat - 48) else Option.none

/-- Python `int(s)` on a string (ASCII fragment): strip whitespace, optional
sign, digits with single internal underscores.  `none` models the
`ValueError` that `_event_key` catches. -/
def pyIntParse (s : String) : Option Int :=
  let cs := s.data.dropWhile isPySpace
  let cs := (cs.reverse.dropWhile isPySpace).reverse
  match cs with
  | [] => Option.none
  | '+' :: rest => (digitsBody rest).map Int.ofNat
  | '-' :: rest => (digitsBody rest).map (fun n => -(Int.ofNat n))
  | _ => (digitsBody cs).map Int.ofNat

/-- Should `_drop_none` discard this value?  (`None`, or an empty dict.) -/
def dropTest : Val → Bool
  | Val.none => true
  | Val.dict kvs => kvs.isEmpty
  | _ => false

/-- `_drop_none`: copy of the record without keys whose value is `None` or an
empty dict. -/
def _drop_none (d : Dict) : Dict :=
  d.filter (fun kv => !dropTest kv.2)

/-- Python string `<`: lexicographic on code points. -/
def pyCharsLt : List Char → List Char → Bool
  | [], [] => false
  | [], _ :: _ => true
  | _ :: _, [] => false
  | a :: as_, b :: bs => a.toNat < b.toNat || (a.toNat == b.toNat && pyCharsLt as_ bs)

def pyStrLt (a b : String) : Bool := pyCharsLt a.data b.data

def pyStrLe (a b : String) : Bool := pyStrLt a b || a == b

/-- Python tuple `<=` on an `(int, str)` pair. -/
def keyLe (x y : Int × String) : Bool :=
  decide (x.1 < y.1) || (x.1 == y.1 && pyStrLe x.2 y.2)

/-- `_event_key` from `_sorted_events`: `(int(key), key)` when the key parses
as an integer, else the sentinel `(10**9, key)`. -/
def _event_key (kv : String × Val) : Int × String :=
  match pyIntParse kv.1 with
  | some n => (n, kv.1)
  | Option.none => ((10 : Int) ^ 9, kv.1)

/-- The comparator induced by `_event_key`, as used by `sorted(..., key=...)`. -/
def eventLe (a b : String × Val) : Bool :=
  keyLe (_event_key a) (_event_key b)

/-- The comparator as a relation. -/
abbrev eventLeR (a b : String × Val) : Prop := eventLe a b = true

/-- `_sorted_events`: Python's stable `sorted` with key `_event_key`.  Python
uses a stable sort with a total preorder comparator; any two stable sorts
agree on such comparators, so we model it with the stable `insertionSort`. -/
def _sorted_events (events : List (String × Val)) : List (String × Val) :=
  List.insertionSort eventLeR events

/-! ## `_post_process` (cli.py lines 64-219) -/

/-- The `file_section` dict literal (lines 86-91). -/
def file_section (parsed : Dict) : Dict :=
  [("description", dget parsed "file_description"),
   ("software", dget parsed "software"),
   ("date_created", dget parsed "date_created"),
   ("licensee", dget parsed "licensee")]

/-- `meet = dict(parsed.get("meet", {}))` (line 93). -/
def meetDict (parsed : Dict) : Dict :=
  asDict (dgetD parsed "meet" (Val.dict []))

/-- `meet.get("teams", {}) or {}` viewed as items (line 96). -/
def teamsOf (meet : Dict) : Dict :=
  asDict (pyOr (dgetD meet "teams" (Val.dict [])) (Val.dict []))

/-- One team record: `dict(team)`, set `code`, pop `swimmers` (lines 98-102). -/
def teamOut (code : String) (team : Val) : Dict :=
  popKey (setKey (asDict team) "code" (Val.str code)) "swimmers"

/-- `teams_list` (lines 97-102). -/
def teams_list (meet : Dict) : List Val :=
  (teamsOf meet).map (fun kv => Val.dict (teamOut kv.1 kv.2))

/-- `meet.get("swimmers", {}) or {}` viewed as items (line 105). -/
def swimmersOf (meet : Dict) : Dict :=
  asDict (pyOr (dgetD meet "swimmers" (Val.dict [])) (Val.dict []))

/-- The `meet_id` written into a swimmer record (line 109): the integer value
when the key is all decimal digits, else the raw key.  (All mapping keys are
strings per the input contract, so the `isinstance` test always holds.) -/
def coerceMeetId (meet_id : String) : Val :=
  if pyIsDigit meet_id then Val.int (Int.ofNat (digitsToNat meet_id))
  else Val.str meet_id

/-- One swimmer record: `dict(swimmer)` with `meet_id` set (lines 107-110). -/
def swimmerOut (meet_id : String) (swimmer : Val) : Dict :=
  setKey (asDict swimmer) "meet_id" (coerceMeetId meet_id)

/-- `swimmers_list` (lines 106-110). -/
def swimmers_list (meet : Dict) : List Val :=
  (swimmersOf meet).map (fun kv => Val.dict (swimmerOut kv.1 kv.2))

/-- `meet.get("events", {}) or {}` viewed as items (line 113). -/
def eventsOf (meet : Dict) : Dict :=
  asDict (pyOr (dgetD meet "events" (Val.dict [])) (Val.dict []))

/-- `entry.get("swimmers", []) or []` then collect each `s.get("meet_id")`
(lines 122-127). -/
def swimmerIdsOf (entry : Dict) : List Val :=
  (asList (pyOr (dgetD entry "swimmers" (Val.list [])) (Val.list []))).map
    (fun s => dget (asDict s) "meet_id")

/-- The four-field seed dict literal (lines 130-135). -/
def seedFields (entry : Dict) : Dict :=
  [("time", dget entry "seed_time"),
   ("course", dget entry "seed_course"),
   ("converted_time", dget entry "converted_seed_time"),
   ("converted_course", dget entry "converted_seed_time_course")]

/-- The pruned seed record (lines 129-136). -/
def seedOf (entry : Dict) : Dict :=
  _drop_none (seedFields entry)

/-- An optional dict as a Python value: `None` or the dict itself. -/
def optDict : Option Dict → Val
  | some d => Val.dict d
  | Option.none => Val.none

/-- The `dq` candidate inside `build_leg` (lines 139-149): `None` when
`dq_info` is falsy, else the pruned `{code, info}` record.
(`pfx` is the source's `prefix` parameter.) -/
def dqOf (entry : Dict) (pfx : String) : Option Dict :=
  let dq_info := dget entry (pfx ++ "_dq_info")
  if pyTruthy dq_info then
    some (_drop_none
      [("code", dget (asDict dq_info) "code"),
       ("info", dget (asDict dq_info) "info_str")])
  else Option.none

/-- The ten-field leg dict literal passed to `_drop_none` (lines 151-164). -/
def legFields (entry : Dict) (pfx : String) : Dict :=
  [("time", dget entry (pfx ++ "_time")),
   ("course", dget entry (pfx ++ "_course")),
   ("time_code", dget entry (pfx ++ "_time_code")),
   ("dq", optDict (dqOf entry pfx)),
   ("heat", dget entry (pfx ++ "_heat")),
   ("lane", dget entry (pfx ++ "_lane")),
   ("heat_place", dget entry (pfx ++ "_heat_place")),
   ("overall_place", dget entry (pfx ++ "_overall_place")),
   ("date", dget entry (pfx ++ "_date")),
   ("splits", dget entry (pfx ++ "_splits"))]

/-- `build_leg` (lines 138-165): prune the leg record; `return leg or None`. -/
def build_leg (entry : Dict) (pfx : String) : Option Dict :=
  let leg := _drop_none (legFields entry pfx)
  if leg.isEmpty then Option.none else some leg

/-- The seven-field entry dict literal (lines 169-177).
`seed or None` maps an empty pruned seed to `None`. -/
def entryOutFields (entry : Dict) : Dict :=
  [("swimmers", Val.list (swimmerIdsOf entry)),
   ("relay", Val.bool (pyTruthy (dgetD entry "relay" (Val.bool false)))),
   ("seed", if (seedOf entry).isEmpty then Val.none else Val.dict (seedOf entry)),
   ("prelim", optDict (build_leg entry "prelim")),
   ("swimoff", optDict (build_leg entry "swimoff")),
   ("finals", optDict (build_leg entry "finals")),
   ("event_number", dget entry "event_number")]

/-- The pruned entry record appended to `reshaped_entries` (lines 167-179). -/
def entryOut (entry : Dict) : Dict :=
  _drop_none (entryOutFields entry)

/-- `e_map = dict(event); e_map["number"] = event_number` (lines 116-117). -/
def eMapOf (event_number : String) (event : Val) : Dict :=
  setKey (asDict event) "number" (Val.str event_number)

/-- `e_map.get("entries", []) or []` reshaped (lines 120-179). -/
def reshapedEntries (e_map : Dict) : List Val :=
  (asList (pyOr (dgetD e_map "entries" (Val.list [])) (Val.list []))).map
    (fun en => Val.dict (entryOut (asDict en)))

/-- The fifteen-field event dict literal (lines 182-198). -/
def eventOutFields (e_map : Dict) : Dict :=
  [("number", dget e_map "number"),
     ("distance", dget e_map "distance"),
     ("stroke", dget e_map "stroke"),
     ("course", dget e_map "course"),
     ("date", dget e_map "date_"),
     ("fee", dget e_map "fee"),
     ("gender", dget e_map "gender"),
     ("gender_age", dget e_map "gender_age"),
     ("age_min", dget e_map "age_min"),
     ("age_max", dget e_map "age_max"),
     ("open", dget e_map "open_"),
     ("relay", Val.bool (pyTruthy (dgetD e_map "relay" (Val.bool false)))),
   ("relay_team_id", dget e_map "relay_team_id"),
   ("relay_swim_team_code", dget e_map "relay_swim_team_code"),
   ("entries", Val.list (reshapedEntries e_map))]

/-- The pruned event record `e_out` (lines 181-199). -/
def eventOut (event_number : String) (event : Val) : Dict :=
  _drop_none (eventOutFields (eMapOf event_number event))

/-- `events_list` (lines 114-200): events sorted by `_event_key`, reshaped. -/
def events_list (meet : Dict) : List Val :=
  (_sorted_events (eventsOf meet)).map (fun kv => Val.dict (eventOut kv.1 kv.2))

/-- The twelve-field meet dict literal (lines 203-216). -/
def meetOutFields (meet : Dict) : Dict :=
  [("name", dget meet "name"),
   ("facility", dget meet "facility"),
   ("start_date", dget meet "start_date"),
   ("end_date", dget meet "end_date"),
   ("altitude", dget meet "altitude"),
   ("country", dget meet "country"),
   ("masters", dget meet "masters"),
   ("type", dget meet "type_"),
   ("course", dget meet "course"),
   ("teams", Val.list (teams_list meet)),
   ("swimmers", Val.list (swimmers_list meet)),
   ("events", Val.list (events_list meet))]

/-- The pruned `meet_out` record (lines 202-217). -/
def meet_out (parsed : Dict) : Dict :=
  _drop_none (meetOutFields (meetDict parsed))

/-- `_post_process` (line 219): the returned two-key dict literal.  Note the
outer literal itself is not pruned: both keys are always present. -/
def _post_process (parsed : Dict) : Dict :=
  [("file", Val.dict (_drop_none (file_section parsed))),
   ("meet", Val.dict (meet_out parsed))]

/-! ## Basic lemmas about pruning and lookups -/

/-- A record has pairwise-distinct keys (Python dicts guarantee this). -/
def KeysNodup (d : Dict) : Prop :=
  d.Pairwise (fun a b => a.1 ≠ b.1)

/-- Boolean check that no field of a record would be pruned. -/
def dictPruned (d : Dict) : Bool :=
  d.all (fun kv => !dropTest kv.2)

theorem mem_drop_none {kv : String × Val} {d : Dict} :
    kv ∈ _drop_none d ↔ kv ∈ d ∧ dropTest kv.2 = false := by
  simp [_drop_none, List.mem_filter]

theorem dictPruned_drop_none (d : Dict) : dictPruned (_drop_none d) = true := by
  simp only [dictPruned, List.all_eq_true]
  intro kv hkv
  simp [(mem_drop_none.mp hkv).2]

theorem lookup_eq_none_of_keys_ne (d : Dict) (k : String)
    (h : ∀ kv ∈ d, kv.1 ≠ k) : List.lookup k d = Option.none := by
  induction d with
  | nil => rfl
  | cons hd tl ih =>
    have hk : hd.1 ≠ k := h hd (List.mem_cons_self _ _)
    have : (k == hd.1) = false := by
      simp [beq_iff_eq]
      exact fun he => hk he.symm
    cases hd with
    | mk k1 v1 =>
      simp only [List.lookup_cons, this]
      exact ih (fun kv hkv => h kv (List.mem_cons_of_mem _ hkv))

theorem lookup_filter_of_nodup (d : Dict) (k : String) (p : String × Val → Bool)
    (hnd : KeysNodup d) :
    List.lookup k (d.filter p) =
      match List.lookup k d with
      | some v => if p (k, v) then some v else Option.none
      | Option.none => Option.none := by
  induction d with
  | nil => rfl
  | cons hd tl ih =>
    obtain ⟨k1, v1⟩ := hd
    have hnd1 : ∀ kv ∈ tl, (k1 : String) ≠ kv.1 := by
      intro kv hkv
      exact (List.pairwise_cons.mp hnd).1 kv hkv
    have hndtl : KeysNodup tl := (List.pairwise_cons.mp hnd).2
    by_cases hk : k = k1
    · subst hk
      by_cases hp : p (k, v1) = true
      · simp [List.filter, hp, List.lookup_cons]
      · have hp' : p (k, v1) = false := by simpa using hp
        simp only [List.filter, hp', List.lookup_cons, beq_self_eq_true]
        have : List.lookup k (tl.filter p) = Option.none := by
          apply lookup_eq_none_of_keys_ne
          intro kv hkv
          have := hnd1 kv (List.mem_filter.mp hkv).1
          exact fun he => this (he.symm)
        simp [this, hp']
    · have hbeq : (k == k1) = false := by simp [beq_iff_eq, hk]
      by_cases hp : p (k1, v1) = true
      · simp only [List.filter, hp, List.lookup_cons, hbeq]
        exact ih hndtl
      · have hp' : p (k1, v1) = false := by simpa using hp
        simp only [List.filter, hp', List.lookup_cons, hbeq]
        rw [ih hndtl]

theorem lookup_drop_none (d : Dict) (k : String) (hnd : KeysNodup d) :
    List.lookup k (_drop_none d) =
      match List.lookup k d with
      | some v => if dropTest v then Option.none else some v
      | Option.none => Option.none := by
  rw [_drop_none, lookup_filter_of_nodup d k _ hnd]
  cases List.lookup k d with
  | none => rfl
  | some v => cases h : dropTest v <;> simp [h]

theorem lookup_map_overwrite_self (d : Dict) (k : String) (v : Val)
    (h : d.any (fun kv => kv.1 == k) = true) :
    List.lookup k (d.map (fun kv => if kv.1 == k then (kv.1, v) else kv)) = some v := by
  induction d with
  | nil => simp at h
  | cons hd tl ih =>
    obtain ⟨k1, v1⟩ := hd
    by_cases hk : k1 = k
    · subst hk
      simp [List.lookup_cons]
    · have hb : (k1 == k) = false := by simp [beq_iff_eq, hk]
      have hb2 : (k == k1) = false := by
        simp [beq_iff_eq]
        exact fun he => hk he.symm
      simp only [List.map, hb, if_false, Bool.false_eq_true, List.lookup_cons, hb2]
      apply ih
      simpa [List.any_cons, hb] using h

theorem lookup_map_overwrite_other (d : Dict) (k k2 : String) (v : Val) (hk : k ≠ k2) :
    List.lookup k (d.map (fun kv => if kv.1 == k2 then (kv.1, v) else kv)) =
      List.lookup k d := by
  induction d with
  | nil => rfl
  | cons hd tl ih =>
    obtain ⟨k1, v1⟩ := hd
    by_cases hk1 : k1 = k2
    · subst hk1
      have hb2 : (k == k1) = false := by simp [beq_iff_eq, hk]
      simp only [List.map, beq_self_eq_true, if_true, List.lookup_cons, hb2]
      exact ih
    · have hb : (k1 == k2) = false := by simp [beq_iff_eq, hk1]
      simp only [List.map, hb, if_false, Bool.false_eq_true, List.lookup_cons]
      cases hkk1 : (k == k1) with
      | true => rfl
      | false => exact ih

theorem lookup_append_single_self (d : Dict) (k : String) (v : Val)
    (h : List.lookup k d = Option.none) :
    List.lookup k (d ++ [(k, v)]) = some v := by
  induction d with
  | nil => simp [List.lookup_cons]
  | cons hd tl ih =>
    obtain ⟨k1, v1⟩ := hd
    rw [List.lookup_cons] at h
    cases hkk1 : (k == k1) with
    | true => simp [hkk1] at h
    | false =>
      simp only [List.cons_append, List.lookup_cons, hkk1]
      rw [hkk1] at h
      exact ih h

theorem lookup_append_single_other (d : Dict) (k k2 : String) (v : Val) (hk : k ≠ k2) :
    List.lookup k (d ++ [(k2, v)]) = List.lookup k d := by
  induction d with
  | nil =>
    have hb : (k == k2) = false := by simp [beq_iff_eq, hk]
    simp [List.lookup_cons, hb]
  | cons hd tl ih =>
    obtain ⟨k1, v1⟩ := hd
    simp only [List.cons_append, List.lookup_cons]
    cases hkk1 : (k == k1) with
    | true => rfl
    | false => exact ih

/-- Look-up through `setKey` at the written key. -/
theorem lookup_setKey_self (d : Dict) (k : String) (v : Val) :
    List.lookup k (setKey d k v) = some v := by
  unfold setKey
  by_cases h : d.any (fun kv => kv.1 == k) = true
  · simp only [h, if_true]
    exact lookup_map_overwrite_self d k v h
  · simp only [h, if_false]
    apply lookup_append_single_self
    apply lookup_eq_none_of_keys_ne
    intro kv hkv he
    apply h
    simp only [List.any_eq_true]
    exact ⟨kv, hkv, by simp [beq_iff_eq, he]⟩

/-- Look-up through `setKey` at a different key. -/
theorem lookup_setKey_other (d : Dict) (k k2 : String) (v : Val) (hk : k ≠ k2) :
    List.lookup k (setKey d k2 v) = List.lookup k d := by
  unfold setKey
  by_cases h : d.any (fun kv => kv.1 == k2) = true
  · simp only [h, if_true]
    exact lookup_map_overwrite_other d k k2 v hk
  · simp only [h, if_false]
    exact lookup_append_single_other d k k2 v hk

/-- C5 helper shape: pruning is a filter, so it is idempotent. -/
theorem drop_none_drop_none (d : Dict) : _drop_none (_drop_none d) = _drop_none d := by
  simp [_drop_none, List.filter_filter]

/-- **C5.** Pruning is idempotent: for every field-name-to-value mapping `r`,
`_drop_none (_drop_none r) = _drop_none r`. -/
theorem prune_idempotent (r : Dict) : _drop_none (_drop_none r) = _drop_none r :=
  drop_none_drop_none r

/-! ## C1: ordering of the emitted events list -/

theorem pyCharsLt_trans (a : List Char) : ∀ (b c : List Char),
    pyCharsLt a b = true → pyCharsLt b c = true → pyCharsLt a c = true := by
  induction a with
  | nil =>
    intro b c hab hbc
    cases b with
    | nil => simp [pyCharsLt] at hab
    | cons y ys =>
      cases c with
      | nil => simp [pyCharsLt] at hbc
      | cons z zs => simp [pyCharsLt]
  | cons x xs ih =>
    intro b c hab hbc
    cases b with
    | nil => simp [pyCharsLt] at hab
    | cons y ys =>
      cases c with
      | nil => simp [pyCharsLt] at hbc
      | cons z zs =>
        simp only [pyCharsLt, Bool.or_eq_true, Bool.and_eq_true, decide_eq_true_eq,
          beq_iff_eq] at hab hbc ⊢
        rcases hab with h1 | ⟨h1, h2⟩
        · rcases hbc with g1 | ⟨g1, g2⟩
          · exact Or.inl (by omega)
          · exact Or.inl (by omega)
        · rcases hbc with g1 | ⟨g1, g2⟩
          · exact Or.inl (by omega)
          · exact Or.inr ⟨by omega, ih ys zs h2 g2⟩

theorem pyCharsLt_eq_of_both_false (a : List Char) : ∀ (b : List Char),
    pyCharsLt a b = false → pyCharsLt b a = false → a = b := by
  induction a with
  | nil =>
    intro b hab _
    cases b with
    | nil => rfl
    | cons y ys => simp [pyCharsLt] at hab
  | cons x xs ih =>
    intro b hab hba
    cases b with
    | nil => simp [pyCharsLt] at hba
    | cons y ys =>
      simp only [pyCharsLt, Bool.or_eq_false_iff, Bool.and_eq_false_iff,
        decide_eq_false_iff_not, beq_eq_false_iff_ne, ne_eq] at hab hba
      have hxy : x.toNat = y.toNat := by omega
      have hx : x = y := Char.ext (UInt32.ext hxy)
      subst hx
      have h2 : pyCharsLt xs ys = false := by
        rcases hab.2 with h | h
        · simp at h
        · exact h
      have h3 : pyCharsLt ys xs = false := by
        rcases hba.2 with h | h
        · simp at h
        · exact h
      rw [ih ys h2 h3]

theorem pyStrLe_trans {a b c : String}
    (hab : pyStrLe a b = true) (hbc : pyStrLe b c = true) : pyStrLe a c = true := by
  simp only [pyStrLe, Bool.or_eq_true, beq_iff_eq] at hab hbc ⊢
  rcases hab with h1 | h1
  · rcases hbc with g1 | g1
    · exact Or.inl (pyCharsLt_trans _ _ _ h1 g1)
    · subst g1
      exact Or.inl h1
  · subst h1
    exact hbc

theorem pyStrLe_total (a b : String) : (pyStrLe a b || pyStrLe b a) = true := by
  simp only [pyStrLe, Bool.or_eq_true, beq_iff_eq]
  cases hab : pyCharsLt a.data b.data with
  | true => exact Or.inl (Or.inl hab)
  | false =>
    cases hba : pyCharsLt b.data a.data with
    | true => exact Or.inr (Or.inl hba)
    | false =>
      have : a.data = b.data := pyCharsLt_eq_of_both_false _ _ hab hba
      exact Or.inl (Or.inr (String.ext this))

theorem keyLe_trans (x y z : Int × String)
    (hxy : keyLe x y = true) (hyz : keyLe y z = true) : keyLe x z = true := by
  simp only [keyLe, Bool.or_eq_true, Bool.and_eq_true, decide_eq_true_eq,
    beq_iff_eq] at hxy hyz ⊢
  rcases hxy with h1 | ⟨h1, h2⟩
  · rcases hyz with g1 | ⟨g1, g2⟩
    · exact Or.inl (by omega)
    · exact Or.inl (by omega)
  · rcases hyz with g1 | ⟨g1, g2⟩
    · exact Or.inl (by omega)
    · exact Or.inr ⟨by omega, pyStrLe_trans h2 g2⟩

theorem keyLe_total (x y : Int × String) : (keyLe x y || keyLe y x) = true := by
  simp only [keyLe, Bool.or_eq_true, Bool.and_eq_true, decide_eq_true_eq, beq_iff_eq]
  by_cases h1 : x.1 < y.1
  · exact Or.inl (Or.inl h1)
  · by_cases h2 : y.1 < x.1
    · exact Or.inr (Or.inl h2)
    · have he : x.1 = y.1 := by omega
      rcases Bool.or_eq_true _ _ |>.mp (pyStrLe_total x.2 y.2) with hs | hs
      · exact Or.inl (Or.inr ⟨he, hs⟩)
      · exact Or.inr (Or.inr ⟨he.symm, hs⟩)

theorem eventLe_trans (a b c : String × Val)
    (hab : eventLe a b = true) (hbc : eventLe b c = true) : eventLe a c = true :=
  keyLe_trans _ _ _ hab hbc

theorem eventLe_total (a b : String × Val) : (eventLe a b || eventLe b a) = true :=
  keyLe_total _ _

/-- The ordering relation the claim states between two event identifiers:
parseable-as-integer identifiers first (by numeric value, ties by the raw
string), non-parseable ones after, ordered by raw string compare. -/
def claimEventRel (a b : String) : Bool :=
  match pyIntParse a, pyIntParse b with
  | some m, some n => decide (m < n) || (m == n && pyStrLe a b)
  | some _, Option.none => true
  | Option.none, some _ => false
  | Option.none, Option.none => pyStrLe a b

/-- The emitted list is ordered as the claim states. -/
def EventsClaimOrdered (l : List (String × Val)) : Prop :=
  List.Pairwise (fun a b => claimEventRel a.1 b.1 = true) l

/-- **C1 (counterexample).** With event identifiers `"2000000000"` and `"ZZ"`,
the numeric identifier `"2000000000"` (value above the `10**9` sentinel used
for non-numeric keys) is emitted AFTER the non-numeric `"ZZ"`, so the claimed
numeric-before-non-numeric order does not hold. -/
theorem sorted_events_claim_counterexample :
    (_sorted_events [("2000000000", Val.none), ("ZZ", Val.none)]).map Prod.fst
        = ["ZZ", "2000000000"]
    ∧ pyIntParse "2000000000" = some 2000000000
    ∧ pyIntParse "ZZ" = Option.none
    ∧ ¬ EventsClaimOrdered (_sorted_events [("2000000000", Val.none), ("ZZ", Val.none)]) := by
  refine ⟨by decide, by decide, by decide, ?_⟩
  unfold EventsClaimOrdered
  decide

instance : IsTrans (String × Val) eventLeR := ⟨eventLe_trans⟩

instance : IsTotal (String × Val) eventLeR := ⟨fun a b => by
  rcases (Bool.or_eq_true _ _).mp (eventLe_total a b) with h | h
  · exact Or.inl h
  · exact Or.inr h⟩

/-- **C1 (amended).** Whenever every integer-parseable event identifier has
numeric value below the `10**9` sentinel that `_event_key` assigns to
non-parseable identifiers, the emitted events list places all parseable
identifiers (ascending by value, ties by raw string compare) before all
non-parseable ones, which are ordered by raw case-sensitive string compare. -/
theorem sorted_events_ordered (events : List (String × Val))
    (hsmall : ∀ kv ∈ events, (pyIntParse kv.1).getD 0 < (10 : Int) ^ 9) :
    EventsClaimOrdered (_sorted_events events) := by
  have hsorted : List.Pairwise eventLeR (_sorted_events events) :=
    List.sorted_insertionSort eventLeR events
  have hperm : (_sorted_events events).Perm events :=
    List.perm_insertionSort eventLeR events
  refine hsorted.imp_of_mem ?_
  intro a b ha hb hle
  have hbmem : b ∈ events := hperm.mem_iff.mp hb
  have hbsmall := hsmall b hbmem
  show claimEventRel a.1 b.1 = true
  have hle2 : keyLe (_event_key a) (_event_key b) = true := hle
  unfold claimEventRel
  cases hpa : pyIntParse a.1 with
  | some m =>
    cases hpb : pyIntParse b.1 with
    | some n =>
      simp only [hpa, hpb]
      simpa [keyLe, _event_key, hpa, hpb] using hle2
    | none => simp [hpa, hpb]
  | none =>
    cases hpb : pyIntParse b.1 with
    | some n =>
      exfalso
      have hn : n < (10 : Int) ^ 9 := by simpa [hpb] using hbsmall
      simp only [keyLe, _event_key, hpa, hpb, Bool.or_eq_true, Bool.and_eq_true,
        decide_eq_true_eq, beq_iff_eq] at hle2
      rcases hle2 with h | ⟨h, _⟩ <;> omega
    | none =>
      simp only [hpa, hpb]
      simp only [keyLe, _event_key, hpa, hpb, Bool.or_eq_true, Bool.and_eq_true,
        decide_eq_true_eq, beq_iff_eq] at hle2
      rcases hle2 with h | ⟨_, h⟩
      · omega
      · exact h

/-- Witness for C1 (amended): the spec's own mixed example, identifiers
`"3"`, `"TT"`, `"1"`, all numeric values below the sentinel. -/
theorem sorted_events_ordered_witness :
    (∀ kv ∈ ([("3", Val.none), ("TT", Val.none), ("1", Val.none)] : List (String × Val)),
        (pyIntParse kv.1).getD 0 < (10 : Int) ^ 9)
    ∧ EventsClaimOrdered
        (_sorted_events [("3", Val.none), ("TT", Val.none), ("1", Val.none)]) :=
  ⟨by decide, sorted_events_ordered _ (by decide)⟩

/-! ## Output accessors and lookup helpers -/

theorem keysNodup_of_nodup_keys (d : Dict) (h : (d.map Prod.fst).Nodup) : KeysNodup d := by
  unfold KeysNodup
  exact List.pairwise_map.mp h

theorem lookup_drop_none_some {d : Dict} {k : String} {v : Val}
    (hnd : KeysNodup d) (hv : List.lookup k d = some v) (hdrop : dropTest v = false) :
    List.lookup k (_drop_none d) = some v := by
  rw [lookup_drop_none d k hnd, hv]
  simp [hdrop]

theorem lookup_drop_none_inv {d : Dict} {k : String} {v : Val}
    (hnd : KeysNodup d) (h : List.lookup k (_drop_none d) = some v) :
    List.lookup k d = some v ∧ dropTest v = false := by
  rw [lookup_drop_none d k hnd] at h
  cases hlk : List.lookup k d with
  | none => rw [hlk] at h; simp at h
  | some w =>
    rw [hlk] at h
    cases hdw : dropTest w with
    | true => simp [hdw] at h
    | false =>
      simp only [hdw, Bool.false_eq_true, if_false, Option.some.injEq] at h
      subst h
      exact ⟨rfl, hdw⟩

theorem lookup_drop_none_none {d : Dict} {k : String} {v : Val}
    (hnd : KeysNodup d) (hv : List.lookup k d = some v) (hdrop : dropTest v = true) :
    List.lookup k (_drop_none d) = Option.none := by
  rw [lookup_drop_none d k hnd, hv]
  simp [hdrop]

/-- The meet record of an output document. -/
def outMeet (out : Dict) : Dict := asDict (dget out "meet")

/-- The emitted teams list of an output document. -/
def outTeams (out : Dict) : List Val := asList (dget (outMeet out) "teams")

/-- The emitted swimmers list of an output document. -/
def outSwimmers (out : Dict) : List Val := asList (dget (outMeet out) "swimmers")

/-- The emitted events list of an output document. -/
def outEvents (out : Dict) : List Val := asList (dget (outMeet out) "events")

theorem post_process_meet (parsed : Dict) :
    outMeet (_post_process parsed) = meet_out parsed := rfl

theorem meetOutFields_keysNodup (meet : Dict) : KeysNodup (meetOutFields meet) :=
  keysNodup_of_nodup_keys _ (by
    show (["name", "facility", "start_date", "end_date", "altitude", "country",
      "masters", "type", "course", "teams", "swimmers", "events"] : List String).Nodup
    decide)

theorem fileSection_keysNodup (parsed : Dict) : KeysNodup (file_section parsed) :=
  keysNodup_of_nodup_keys _ (by
    show (["description", "software", "date_created", "licensee"] : List String).Nodup
    decide)

theorem entryOutFields_keysNodup (entry : Dict) : KeysNodup (entryOutFields entry) :=
  keysNodup_of_nodup_keys _ (by
    show (["swimmers", "relay", "seed", "prelim", "swimoff", "finals",
      "event_number"] : List String).Nodup
    decide)

theorem eventOutFields_keysNodup (e_map : Dict) : KeysNodup (eventOutFields e_map) :=
  keysNodup_of_nodup_keys _ (by
    show (["number", "distance", "stroke", "course", "date", "fee", "gender",
      "gender_age", "age_min", "age_max", "open", "relay", "relay_team_id",
      "relay_swim_team_code", "entries"] : List String).Nodup
    decide)

theorem legFields_keysNodup (entry : Dict) (pfx : String) :
    KeysNodup (legFields entry pfx) :=
  keysNodup_of_nodup_keys _ (by
    show (["time", "course", "time_code", "dq", "heat", "lane", "heat_place",
      "overall_place", "date", "splits"] : List String).Nodup
    decide)

theorem seedFields_keysNodup (entry : Dict) : KeysNodup (seedFields entry) :=
  keysNodup_of_nodup_keys _ (by
    show (["time", "course", "converted_time", "converted_course"] : List String).Nodup
    decide)

theorem meet_out_lookup_teams (parsed : Dict) :
    List.lookup "teams" (meet_out parsed)
      = some (Val.list (teams_list (meetDict parsed))) := by
  unfold meet_out
  exact lookup_drop_none_some (meetOutFields_keysNodup _) rfl rfl

theorem meet_out_lookup_swimmers (parsed : Dict) :
    List.lookup "swimmers" (meet_out parsed)
      = some (Val.list (swimmers_list (meetDict parsed))) := by
  unfold meet_out
  exact lookup_drop_none_some (meetOutFields_keysNodup _) rfl rfl

theorem meet_out_lookup_events (parsed : Dict) :
    List.lookup "events" (meet_out parsed)
      = some (Val.list (events_list (meetDict parsed))) := by
  unfold meet_out
  exact lookup_drop_none_some (meetOutFields_keysNodup _) rfl rfl

theorem outTeams_post_process (parsed : Dict) :
    outTeams (_post_process parsed) = teams_list (meetDict parsed) := by
  unfold outTeams
  rw [post_process_meet]
  unfold dget dgetD
  rw [meet_out_lookup_teams]
  rfl

theorem outSwimmers_post_process (parsed : Dict) :
    outSwimmers (_post_process parsed) = swimmers_list (meetDict parsed) := by
  unfold outSwimmers
  rw [post_process_meet]
  unfold dget dgetD
  rw [meet_out_lookup_swimmers]
  rfl

theorem outEvents_post_process (parsed : Dict) :
    outEvents (_post_process parsed) = events_list (meetDict parsed) := by
  unfold outEvents
  rw [post_process_meet]
  unfold dget dgetD
  rw [meet_out_lookup_events]
  rfl

theorem build_leg_some {entry : Dict} {pfx : String} {leg : Dict}
    (h : build_leg entry pfx = some leg) :
    leg = _drop_none (legFields entry pfx) ∧ leg.isEmpty = false := by
  simp only [build_leg] at h
  cases he : (_drop_none (legFields entry pfx)).isEmpty with
  | true => simp [he] at h
  | false =>
    simp only [he, Bool.false_eq_true, if_false, Option.some.injEq] at h
    subst h
    exact ⟨rfl, he⟩

/-! ## C2: which record boundaries apply pruning -/

/-- A value is a record with no prunable fields left. -/
def valRecPruned : Val → Bool
  | Val.dict d => dictPruned d
  | _ => false

/-- Input whose team record and swimmer record each carry an absent field. -/
def exUnprunedTeam : Dict :=
  [("meet", Val.dict
    [("teams", Val.dict [("ABC", Val.dict [("name", Val.none)])]),
     ("swimmers", Val.dict [("7", Val.dict [("age", Val.none)])])])]

/-- **C2 (counterexample).** A team record with `name = None` and a swimmer
record with `age = None` are emitted into the output teams/swimmers lists
with those absent fields still present: `teams_list` and `swimmers_list`
records are not passed through `_drop_none`. -/
theorem teams_swimmers_not_pruned :
    outTeams (_post_process exUnprunedTeam)
        = [Val.dict [("name", Val.none), ("code", Val.str "ABC")]]
    ∧ outSwimmers (_post_process exUnprunedTeam)
        = [Val.dict [("age", Val.none), ("meet_id", Val.int 7)]]
    ∧ (outTeams (_post_process exUnprunedTeam)).all valRecPruned = false
    ∧ (outSwimmers (_post_process exUnprunedTeam)).all valRecPruned = false :=
  ⟨rfl, rfl, rfl, rfl⟩

theorem entry_seed_value_pruned {entry : Dict} {v : Val}
    (h1 : some (if (seedOf entry).isEmpty then Val.none else Val.dict (seedOf entry))
            = some v)
    (h2 : dropTest v = false) :
    ∃ s, v = Val.dict s ∧ dictPruned s = true := by
  cases hse : (seedOf entry).isEmpty with
  | true =>
    simp only [hse, if_true, Option.some.injEq] at h1
    rw [← h1] at h2
    simp [dropTest] at h2
  | false =>
    simp only [hse, Bool.false_eq_true, if_false, Option.some.injEq] at h1
    refine ⟨seedOf entry, h1.symm, ?_⟩
    unfold seedOf
    exact dictPruned_drop_none _

theorem dqOf_some_pruned {entry : Dict} {pfx : String} {dqd : Dict}
    (h : dqOf entry pfx = some dqd) : dictPruned dqd = true := by
  simp only [dqOf] at h
  cases ht : pyTruthy (dget entry (pfx ++ "_dq_info")) with
  | false => simp [ht] at h
  | true =>
    simp only [ht, if_true, Option.some.injEq] at h
    rw [← h]
    exact dictPruned_drop_none _

/-- A surviving leg value is a pruned record, and the `dq` value inside it
(when present) is itself a pruned record. -/
theorem entry_leg_value_pruned {entry : Dict} {v : Val} {pfx : String}
    (h1 : some (optDict (build_leg entry pfx)) = some v)
    (h2 : dropTest v = false) :
    ∃ s, v = Val.dict s ∧ dictPruned s = true
      ∧ ∀ w, List.lookup "dq" s = some w →
          ∃ t, w = Val.dict t ∧ dictPruned t = true := by
  cases hbl : build_leg entry pfx with
  | none =>
    rw [hbl] at h1
    simp only [optDict, Option.some.injEq] at h1
    rw [← h1] at h2
    simp [dropTest] at h2
  | some leg =>
    rw [hbl] at h1
    simp only [optDict, Option.some.injEq] at h1
    obtain ⟨hlegeq, -⟩ := build_leg_some hbl
    refine ⟨leg, h1.symm, by rw [hlegeq]; exact dictPruned_drop_none _, ?_⟩
    intro w hw
    rw [hlegeq] at hw
    obtain ⟨hw1, hw2⟩ := lookup_drop_none_inv (legFields_keysNodup entry pfx) hw
    have hlit : List.lookup "dq" (legFields entry pfx)
        = some (optDict (dqOf entry pfx)) := rfl
    rw [hw1] at hlit
    have hweq : w = optDict (dqOf entry pfx) := by
      simpa using hlit
    cases hdq : dqOf entry pfx with
    | none =>
      rw [hdq] at hweq
      rw [hweq] at hw2
      simp [optDict, dropTest] at hw2
    | some dqd =>
      rw [hdq] at hweq
      exact ⟨dqd, hweq, dqOf_some_pruned hdq⟩

/-- **C2 (amended).** Pruning is applied when constructing the file section,
the meet record, every event record, every entry record and every seed, leg
and dq record inside an entry — but NOT to team and swimmer records, which
are emitted as raw copies (with `code` / `meet_id` folded in) and may retain
absent fields. -/
theorem prune_applied_at_boundaries (parsed : Dict) :
    dictPruned (_drop_none (file_section parsed)) = true
    ∧ dictPruned (meet_out parsed) = true
    ∧ outTeams (_post_process parsed) = teams_list (meetDict parsed)
    ∧ outSwimmers (_post_process parsed) = swimmers_list (meetDict parsed)
    ∧ (∀ ev ∈ outEvents (_post_process parsed),
        ∃ d, ev = Val.dict d ∧ dictPruned d = true
        ∧ ∀ ens, List.lookup "entries" d = some (Val.list ens) →
            ∀ en ∈ ens, ∃ e, en = Val.dict e ∧ dictPruned e = true
              ∧ (∀ v, List.lookup "seed" e = some v →
                  ∃ s, v = Val.dict s ∧ dictPruned s = true)
              ∧ (∀ k ∈ (["prelim", "swimoff", "finals"] : List String),
                  ∀ v, List.lookup k e = some v →
                    ∃ s, v = Val.dict s ∧ dictPruned s = true
                      ∧ ∀ w, List.lookup "dq" s = some w →
                          ∃ t, w = Val.dict t ∧ dictPruned t = true)) := by
  refine ⟨dictPruned_drop_none _, ?_, outTeams_post_process _,
    outSwimmers_post_process _, ?_⟩
  · unfold meet_out
    exact dictPruned_drop_none _
  intro ev hev
  rw [outEvents_post_process] at hev
  unfold events_list at hev
  rcases List.mem_map.mp hev with ⟨kv, hkv, rfl⟩
  refine ⟨eventOut kv.1 kv.2, rfl, by unfold eventOut; exact dictPruned_drop_none _, ?_⟩
  intro ens hens
  unfold eventOut at hens
  have hinv := lookup_drop_none_inv (eventOutFields_keysNodup _) hens
  have h1 := hinv.1
  have hlit : List.lookup "entries" (eventOutFields (eMapOf kv.1 kv.2))
      = some (Val.list (reshapedEntries (eMapOf kv.1 kv.2))) := rfl
  rw [hlit] at h1
  simp only [Option.some.injEq, Val.list.injEq] at h1
  subst h1
  intro en hen
  unfold reshapedEntries at hen
  rcases List.mem_map.mp hen with ⟨en0, hen0, rfl⟩
  refine ⟨entryOut (asDict en0), rfl,
    by unfold entryOut; exact dictPruned_drop_none _, ?_, ?_⟩
  · intro v hv
    unfold entryOut at hv
    obtain ⟨hv1, hv2⟩ := lookup_drop_none_inv (entryOutFields_keysNodup _) hv
    have hlit2 : List.lookup "seed" (entryOutFields (asDict en0))
        = some (if (seedOf (asDict en0)).isEmpty then Val.none
                else Val.dict (seedOf (asDict en0))) := rfl
    rw [hv1] at hlit2
    exact entry_seed_value_pruned hlit2.symm hv2
  · intro k hk v hv
    unfold entryOut at hv
    obtain ⟨hv1, hv2⟩ := lookup_drop_none_inv (entryOutFields_keysNodup _) hv
    fin_cases hk
    · have hlit2 : List.lookup "prelim" (entryOutFields (asDict en0))
          = some (optDict (build_leg (asDict en0) "prelim")) := rfl
      rw [hv1] at hlit2
      exact entry_leg_value_pruned hlit2.symm hv2
    · have hlit2 : List.lookup "swimoff" (entryOutFields (asDict en0))
          = some (optDict (build_leg (asDict en0) "swimoff")) := rfl
      rw [hv1] at hlit2
      exact entry_leg_value_pruned hlit2.symm hv2
    · have hlit2 : List.lookup "finals" (entryOutFields (asDict en0))
          = some (optDict (build_leg (asDict en0) "finals")) := rfl
      rw [hv1] at hlit2
      exact entry_leg_value_pruned hlit2.symm hv2

/-- Input with one event whose entry carries a prelim dq record with an
absent `info_str`. -/
def exDqMeet : Dict :=
  [("meet", Val.dict [("events", Val.dict
    [("1", Val.dict [("entries", Val.list
      [Val.dict [("prelim_time", Val.str "59.10"),
                 ("prelim_dq_info", Val.dict [("code", Val.str "DQ"),
                                              ("info_str", Val.none)])]])])])])]

/-- Witness for C2 (amended) at concrete inputs, including the dq record
inside the prelim leg emitted for `exDqMeet`: it comes out pruned (the
absent `info_str` is gone). -/
theorem prune_applied_at_boundaries_witness :
    dictPruned (_drop_none (file_section exUnprunedTeam)) = true
    ∧ dictPruned (meet_out exUnprunedTeam) = true
    ∧ (∃ t, List.lookup "dq"
          [("time", Val.str "59.10"), ("dq", Val.dict [("code", Val.str "DQ")])]
          = some (Val.dict t) ∧ dictPruned t = true) := by
  refine ⟨(prune_applied_at_boundaries exUnprunedTeam).1,
    (prune_applied_at_boundaries exUnprunedTeam).2.1, ?_⟩
  obtain ⟨-, -, -, -, hev⟩ := prune_applied_at_boundaries exDqMeet
  obtain ⟨d, hd, -, hents⟩ := hev
    (Val.dict [("number", Val.str "1"), ("relay", Val.bool false),
      ("entries", Val.list [Val.dict
        [("swimmers", Val.list []), ("relay", Val.bool false),
         ("prelim", Val.dict [("time", Val.str "59.10"),
           ("dq", Val.dict [("code", Val.str "DQ")])])]])])
    (List.mem_cons_self _ _)
  injection hd with hd2
  subst hd2
  obtain ⟨e, he, -, -, hlegs⟩ := hents
    [Val.dict [("swimmers", Val.list []), ("relay", Val.bool false),
      ("prelim", Val.dict [("time", Val.str "59.10"),
        ("dq", Val.dict [("code", Val.str "DQ")])])]]
    rfl
    (Val.dict [("swimmers", Val.list []), ("relay", Val.bool false),
      ("prelim", Val.dict [("time", Val.str "59.10"),
        ("dq", Val.dict [("code", Val.str "DQ")])])])
    (List.mem_cons_self _ _)
  injection he with he2
  subst he2
  obtain ⟨s, hs, -, hdq⟩ := hlegs "prelim" (by simp)
    (Val.dict [("time", Val.str "59.10"), ("dq", Val.dict [("code", Val.str "DQ")])])
    rfl
  injection hs with hs2
  subst hs2
  obtain ⟨t, ht, htp⟩ := hdq (Val.dict [("code", Val.str "DQ")]) rfl
  refine ⟨t, ?_, htp⟩
  rw [← ht]
  rfl

/-! ## C3 & C4: empty records collapse to absent -/

/-- **C3 (counterexample).** An input with all four file-level fields absent
yields an output that still has a `file` key, bound to an empty record: the
outer two-key literal returned by `_post_process` is not pruned. -/
theorem file_key_present_when_empty :
    List.lookup "file" (_post_process ([] : Dict)) = some (Val.dict [])
    ∧ _post_process ([] : Dict)
        = [("file", Val.dict []),
           ("meet", Val.dict [("teams", Val.list []), ("swimmers", Val.list []),
                              ("events", Val.list [])])] :=
  ⟨rfl, rfl⟩

theorem build_leg_eq_none_iff (entry : Dict) (pfx : String) :
    build_leg entry pfx = Option.none
      ↔ ∀ kv ∈ legFields entry pfx, dropTest kv.2 = true := by
  simp only [build_leg]
  constructor
  · intro h
    cases he : (_drop_none (legFields entry pfx)).isEmpty with
    | false => simp [he] at h
    | true =>
      have hnil : _drop_none (legFields entry pfx) = [] := List.isEmpty_iff.mp he
      intro kv hkv
      have := List.filter_eq_nil_iff.mp hnil kv hkv
      simpa using this
  · intro h
    have hnil : _drop_none (legFields entry pfx) = [] := by
      apply List.filter_eq_nil_iff.mpr
      intro a ha
      simp [h a ha]
    simp [hnil]

theorem lookup_entryOutFields_leg (entry : Dict) (pfx : String)
    (hpfx : pfx ∈ (["prelim", "swimoff", "finals"] : List String)) :
    List.lookup pfx (entryOutFields entry) = some (optDict (build_leg entry pfx)) := by
  fin_cases hpfx <;> rfl

theorem lookup_entryOut_leg_none_iff (entry : Dict) (pfx : String)
    (hpfx : pfx ∈ (["prelim", "swimoff", "finals"] : List String)) :
    List.lookup pfx (entryOut entry) = Option.none
      ↔ build_leg entry pfx = Option.none := by
  unfold entryOut
  rw [lookup_drop_none _ _ (entryOutFields_keysNodup _),
    lookup_entryOutFields_leg entry pfx hpfx]
  cases hbl : build_leg entry pfx with
  | none => simp [optDict, dropTest]
  | some leg =>
    obtain ⟨-, hne⟩ := build_leg_some hbl
    simp [optDict, dropTest, hne]

/-- **C3 (amended).** A fully-pruned seed, leg or dq record collapses to
absent (no key) at its nesting level; the entry and meet records can never
fully prune (they always retain their list/bool fields), and the `file` key
is always emitted — bound to the pruned, possibly empty, file section —
rather than collapsing to absent. -/
theorem empty_record_collapse (parsed entry : Dict) (pfx : String)
    (hpfx : pfx ∈ (["prelim", "swimoff", "finals"] : List String)) :
    List.lookup "file" (_post_process parsed)
        = some (Val.dict (_drop_none (file_section parsed)))
    ∧ List.lookup "meet" (_post_process parsed) = some (Val.dict (meet_out parsed))
    ∧ ((seedOf entry).isEmpty = true →
        List.lookup "seed" (entryOut entry) = Option.none)
    ∧ (build_leg entry pfx = Option.none →
        List.lookup pfx (entryOut entry) = Option.none)
    ∧ (∀ leg, build_leg entry pfx = some leg →
        dqOf entry pfx = Option.none ∨ dqOf entry pfx = some ([] : Dict) →
        List.lookup "dq" leg = Option.none)
    ∧ List.lookup "swimmers" (entryOut entry)
        = some (Val.list (swimmerIdsOf entry)) := by
  refine ⟨rfl, rfl, ?_, ?_, ?_, ?_⟩
  · intro hse
    unfold entryOut
    exact lookup_drop_none_none (entryOutFields_keysNodup _) rfl (by simp [hse, dropTest])
  · intro hbl
    exact (lookup_entryOut_leg_none_iff entry pfx hpfx).mpr hbl
  · intro leg hbl hdq
    obtain ⟨hleg, -⟩ := build_leg_some hbl
    rw [hleg]
    apply lookup_drop_none_none (legFields_keysNodup entry pfx)
      (show List.lookup "dq" (legFields entry pfx) = some (optDict (dqOf entry pfx))
        from rfl)
    rcases hdq with h | h <;> rw [h] <;> rfl
  · unfold entryOut
    exact lookup_drop_none_some (entryOutFields_keysNodup _) rfl rfl

/-- Entry carrying one finals time and a dq record whose `code` and
`info_str` are both absent. -/
def exEntryDq : Dict :=
  [("finals_time", Val.str "58.00"),
   ("finals_dq_info", Val.dict [("other", Val.int 1)])]

/-- Witness for C3 (amended) at concrete inputs. -/
theorem empty_record_collapse_witness :
    List.lookup "seed" (entryOut ([] : Dict)) = Option.none
    ∧ List.lookup "prelim" (entryOut ([] : Dict)) = Option.none
    ∧ List.lookup "dq" [("time", Val.str "58.00")] = Option.none := by
  obtain ⟨-, -, hseed, hleg, -, -⟩ := empty_record_collapse [] [] "prelim" (by simp)
  obtain ⟨-, -, -, -, hdq, -⟩ := empty_record_collapse [] exEntryDq "finals" (by simp)
  exact ⟨hseed rfl, hleg rfl, hdq _ rfl (Or.inr rfl)⟩

/-- **C4.** For each phase in prelim/swimoff/finals: the EntryOutput has no
leg key exactly when every phase-scoped leg field prunes away (so an empty
leg object is never emitted); an entry with all four seed fields absent
yields no `seed` key; and a dq candidate that prunes to nothing (absent
`dq_info`, or both `code` and `info_str` pruning away) yields no `dq` key
inside the emitted leg. -/
theorem leg_builder_collapse (entry : Dict) (pfx : String)
    (hpfx : pfx ∈ (["prelim", "swimoff", "finals"] : List String)) :
    (List.lookup pfx (entryOut entry) = Option.none
        ↔ ∀ kv ∈ legFields entry pfx, dropTest kv.2 = true)
    ∧ (dget entry "seed_time" = Val.none →
       dget entry "seed_course" = Val.none →
       dget entry "converted_seed_time" = Val.none →
       dget entry "converted_seed_time_course" = Val.none →
        List.lookup "seed" (entryOut entry) = Option.none)
    ∧ (∀ leg, build_leg entry pfx = some leg →
        dqOf entry pfx = Option.none ∨ dqOf entry pfx = some ([] : Dict) →
        List.lookup "dq" leg = Option.none) := by
  refine ⟨?_, ?_, ?_⟩
  · exact (lookup_entryOut_leg_none_iff entry pfx hpfx).trans
      (build_leg_eq_none_iff entry pfx)
  · intro h1 h2 h3 h4
    have hse : (seedOf entry).isEmpty = true := by
      unfold seedOf seedFields
      rw [h1, h2, h3, h4]
      rfl
    unfold entryOut
    exact lookup_drop_none_none (entryOutFields_keysNodup _) rfl (by simp [hse, dropTest])
  · intro leg hbl hdq
    obtain ⟨hleg, -⟩ := build_leg_some hbl
    rw [hleg]
    apply lookup_drop_none_none (legFields_keysNodup entry pfx)
      (show List.lookup "dq" (legFields entry pfx) = some (optDict (dqOf entry pfx))
        from rfl)
    rcases hdq with h | h <;> rw [h] <;> rfl

/-- Witness for C4 at concrete inputs: an empty entry has no prelim leg and
no seed key; `exEntryDq` emits a finals leg without a `dq` key even though a
(fully prunable) dq record is present. -/
theorem leg_builder_collapse_witness :
    (List.lookup "prelim" (entryOut ([] : Dict)) = Option.none)
    ∧ List.lookup "seed" (entryOut ([] : Dict)) = Option.none
    ∧ List.lookup "dq" [("time", Val.str "58.00")] = Option.none := by
  obtain ⟨hiff, hseed, -⟩ := leg_builder_collapse [] "prelim" (by simp)
  obtain ⟨-, -, hdq⟩ := leg_builder_collapse exEntryDq "finals" (by simp)
  exact ⟨hiff.mpr (by decide), hseed rfl rfl rfl rfl, hdq _ rfl (Or.inr rfl)⟩

/-! ## C6 & C7: reference reduction and id coercion -/

theorem swimmerIdsOf_eq (entry : Dict) (srecs : List Val)
    (hsw : List.lookup "swimmers" entry = some (Val.list srecs)) :
    swimmerIdsOf entry = srecs.map (fun s => dget (asDict s) "meet_id") := by
  unfold swimmerIdsOf
  have h1 : dgetD entry "swimmers" (Val.list []) = Val.list srecs := by
    unfold dgetD
    rw [hsw]
  rw [h1]
  cases srecs with
  | nil => rfl
  | cons s ss => rfl

/-- **C6.** The EntryOutput's `swimmers` field is exactly the sequence of
`meet_id` values of the entry's embedded swimmer records, preserving source
order and multiplicity. -/
theorem entry_swimmers_reduction (entry : Dict) (srecs : List Val)
    (hsw : List.lookup "swimmers" entry = some (Val.list srecs)) :
    List.lookup "swimmers" (entryOut entry)
      = some (Val.list (srecs.map (fun s => dget (asDict s) "meet_id"))) := by
  rw [← swimmerIdsOf_eq entry srecs hsw]
  unfold entryOut
  exact lookup_drop_none_some (entryOutFields_keysNodup _) rfl rfl

/-- Relay entry with two embedded swimmer records, meet ids 5 and 12. -/
def exRelayEntry : Dict :=
  [("swimmers", Val.list
     [Val.dict [("meet_id", Val.int 5), ("first_name", Val.str "A")],
      Val.dict [("meet_id", Val.int 12), ("first_name", Val.str "B")]])]

/-- Witness for C6: the spec's `[{meet_id: 5}, {meet_id: 12}] ↦ [5, 12]`
example. -/
theorem entry_swimmers_reduction_witness :
    List.lookup "swimmers" (entryOut exRelayEntry)
      = some (Val.list [Val.int 5, Val.int 12]) :=
  entry_swimmers_reduction exRelayEntry
    [Val.dict [("meet_id", Val.int 5), ("first_name", Val.str "A")],
     Val.dict [("meet_id", Val.int 12), ("first_name", Val.str "B")]] rfl

/-- **C7.** Each swimmer mapping key is emitted as the record's `meet_id`:
the integer value when the key is a string of decimal digits, the raw key
string otherwise. -/
theorem swimmer_meet_id_coercion (parsed : Dict) (k : String) (sw : Val)
    (hmem : (k, sw) ∈ swimmersOf (meetDict parsed)) :
    Val.dict (swimmerOut k sw) ∈ outSwimmers (_post_process parsed)
    ∧ List.lookup "meet_id" (swimmerOut k sw) = some (coerceMeetId k)
    ∧ (pyIsDigit k = true → coerceMeetId k = Val.int (Int.ofNat (digitsToNat k)))
    ∧ (pyIsDigit k = false → coerceMeetId k = Val.str k) := by
  refine ⟨?_, lookup_setKey_self _ _ _, ?_, ?_⟩
  · rw [outSwimmers_post_process]
    unfold swimmers_list
    exact List.mem_map.mpr ⟨(k, sw), hmem, rfl⟩
  · intro h
    unfold coerceMeetId
    simp [h]
  · intro h
    unfold coerceMeetId
    simp [h]

/-- Input meet with swimmer keys `"42"` (all digits) and `"A7"` (symbolic). -/
def exSwimmers : Dict :=
  [("meet", Val.dict [("swimmers", Val.dict
     [("42", Val.dict [("first_name", Val.str "Jo")]),
      ("A7", Val.dict [("first_name", Val.str "Pat")])])])]

/-- Witness for C7: key `"42"` yields integer 42, key `"A7"` stays a string. -/
theorem swimmer_meet_id_coercion_witness :
    Val.dict [("first_name", Val.str "Jo"), ("meet_id", Val.int 42)]
        ∈ outSwimmers (_post_process exSwimmers)
    ∧ Val.dict [("first_name", Val.str "Pat"), ("meet_id", Val.str "A7")]
        ∈ outSwimmers (_post_process exSwimmers)
    ∧ List.lookup "meet_id" (swimmerOut "42" (Val.dict [("first_name", Val.str "Jo")]))
        = some (Val.int 42)
    ∧ List.lookup "meet_id" (swimmerOut "A7" (Val.dict [("first_name", Val.str "Pat")]))
        = some (Val.str "A7") := by
  have h1 := swimmer_meet_id_coercion exSwimmers "42"
    (Val.dict [("first_name", Val.str "Jo")]) (List.mem_cons_self _ _)
  have h2 := swimmer_meet_id_coercion exSwimmers "A7"
    (Val.dict [("first_name", Val.str "Pat")])
    (List.mem_cons_of_mem _ (List.mem_cons_self _ _))
  exact ⟨h1.1, h2.1, h1.2.1, h2.2.1⟩

/-! ## C9: determinism -/

/-- **C9.** The reshape is deterministic: `_post_process` is modelled as a
pure function of the input tree (the source reads no clock, randomness or
global state, and Python dict iteration order is the deterministic insertion
order), so equal input trees yield equal output trees. -/
theorem post_process_deterministic (p q : Dict) (h : p = q) :
    _post_process p = _post_process q := by
  rw [h]

/-- Witness for C9 at a concrete input. -/
theorem post_process_deterministic_witness :
    ([("software", Val.str "HT")] : Dict) = [("software", Val.str "HT")]
    ∧ _post_process [("software", Val.str "HT")]
        = _post_process [("software", Val.str "HT")] :=
  ⟨rfl, post_process_deterministic _ _ rfl⟩

/-! ## C10: empty lists are retained by pruning -/

theorem eventOut_lookup_entries (num : String) (ev : Val) :
    List.lookup "entries" (eventOut num ev)
      = some (Val.list (reshapedEntries (eMapOf num ev))) := by
  unfold eventOut
  exact lookup_drop_none_some (eventOutFields_keysNodup _) rfl rfl

theorem reshapedEntries_empty (num : String) (ev : Val)
    (h : List.lookup "entries" (asDict ev) = some (Val.list [])) :
    reshapedEntries (eMapOf num ev) = [] := by
  have hl : List.lookup "entries" (eMapOf num ev)
      = List.lookup "entries" (asDict ev) :=
    lookup_setKey_other _ _ _ _ (by decide)
  unfold reshapedEntries dgetD
  rw [hl, h]
  rfl

theorem teams_list_empty (meet : Dict)
    (h : List.lookup "teams" meet = some (Val.dict [])) :
    teams_list meet = [] := by
  unfold teams_list teamsOf dgetD
  rw [h]
  rfl

theorem swimmers_list_empty (meet : Dict)
    (h : List.lookup "swimmers" meet = some (Val.dict [])) :
    swimmers_list meet = [] := by
  unfold swimmers_list swimmersOf dgetD
  rw [h]
  rfl

theorem events_list_empty (meet : Dict)
    (h : List.lookup "events" meet = some (Val.dict [])) :
    events_list meet = [] := by
  unfold events_list eventsOf dgetD
  rw [h]
  rfl

/-- **C10.** Pruning removes only fields whose value is `None` or an empty
keyed mapping; a field holding a list — even an empty one — is retained.  In
particular an event whose entries sequence is empty still emits
`entries: []`, and a meet whose teams/swimmers/events mappings are empty
emits them as (empty) lists rather than omitting the keys. -/
theorem prune_keeps_empty_lists (d : Dict) (parsed : Dict) (num : String) (ev : Val) :
    (∀ kv ∈ d, kv ∉ _drop_none d → kv.2 = Val.none ∨ kv.2 = Val.dict [])
    ∧ (∀ (k : String) (xs : List Val), (k, Val.list xs) ∈ d →
        (k, Val.list xs) ∈ _drop_none d)
    ∧ (List.lookup "entries" (asDict ev) = some (Val.list []) →
        List.lookup "entries" (eventOut num ev) = some (Val.list []))
    ∧ (List.lookup "teams" (meetDict parsed) = some (Val.dict []) →
        List.lookup "teams" (meet_out parsed) = some (Val.list []))
    ∧ (List.lookup "swimmers" (meetDict parsed) = some (Val.dict []) →
        List.lookup "swimmers" (meet_out parsed) = some (Val.list []))
    ∧ (List.lookup "events" (meetDict parsed) = some (Val.dict []) →
        List.lookup "events" (meet_out parsed) = some (Val.list [])) := by
  refine ⟨?_, ?_, ?_, ?_, ?_, ?_⟩
  · intro kv hin hnot
    have hdt : dropTest kv.2 = true := by
      by_contra hc
      have hf : dropTest kv.2 = false := by simpa using hc
      exact hnot (mem_drop_none.mpr ⟨hin, hf⟩)
    obtain ⟨k0, v0⟩ := kv
    cases v0 with
    | none => exact Or.inl rfl
    | int n => simp [dropTest] at hdt
    | str s => simp [dropTest] at hdt
    | bool b => simp [dropTest] at hdt
    | list xs => simp [dropTest] at hdt
    | dict kvs =>
      right
      simp only [dropTest, List.isEmpty_iff] at hdt
      rw [hdt]
  · intro k xs h
    exact mem_drop_none.mpr ⟨h, rfl⟩
  · intro h
    rw [eventOut_lookup_entries, reshapedEntries_empty num ev h]
  · intro h
    rw [meet_out_lookup_teams, teams_list_empty _ h]
  · intro h
    rw [meet_out_lookup_swimmers, swimmers_list_empty _ h]
  · intro h
    rw [meet_out_lookup_events, events_list_empty _ h]

/-- Input meet whose teams, swimmers and events mappings are all empty. -/
def exEmptyMeet : Dict :=
  [("meet", Val.dict [("teams", Val.dict []), ("swimmers", Val.dict []),
                      ("events", Val.dict [])])]

/-- Witness for C10 at concrete inputs. -/
theorem prune_keeps_empty_lists_witness :
    List.lookup "entries" (eventOut "1" (Val.dict [("entries", Val.list [])]))
        = some (Val.list [])
    ∧ List.lookup "teams" (meet_out exEmptyMeet) = some (Val.list [])
    ∧ List.lookup "swimmers" (meet_out exEmptyMeet) = some (Val.list [])
    ∧ List.lookup "events" (meet_out exEmptyMeet) = some (Val.list [])
    ∧ ("xs", Val.list []) ∈ _drop_none [("xs", Val.list [])] := by
  obtain ⟨-, h2, h3, h4, h5, h6⟩ := prune_keeps_empty_lists
    [("xs", Val.list [])] exEmptyMeet "1" (Val.dict [("entries", Val.list [])])
  exact ⟨h3 rfl, h4 rfl, h5 rfl, h6 rfl, h2 "xs" [] (List.mem_cons_self _ _)⟩

/-! ## C8: no mutation of the input (explicit-heap model)

The pure model above cannot express Python's object identity, so for the
frame claim we re-embed `_drop_none` and `_post_process` over an explicit
heap of dict objects.  Dicts live on the heap and are passed by reference
(`HVal.ref`); `dict(x)` copies, `d[k] = v` and `d.pop(k, None)` write in
place.  The claim becomes: running the reshape only allocates fresh
addresses and writes to those, leaving every pre-existing heap object —
in particular the whole input tree — unchanged. -/

/-- Heap values: like `Val`, but dict objects are referenced by address. -/
inductive HVal where
  | none : HVal
  | int (n : Int) : HVal
  | str (s : String) : HVal
  | bool (b : Bool) : HVal
  | list (xs : List HVal) : HVal
  | ref (a : Nat) : HVal

abbrev HObj := List (String × HVal)

/-- A heap of dict objects plus the next fresh address. -/
structure Heap where
  objs : List (Nat × HObj)
  next : Nat

/-- Read a dict object (shape default for dangling refs). -/
def getObj (h : Heap) (a : Nat) : HObj :=
  (List.lookup a h.objs).getD []

/-- Allocate a fresh dict object (a Python dict literal / `dict(...)`). -/
def allocObj (h : Heap) (fields : HObj) : Heap × Nat :=
  (⟨h.objs ++ [(h.next, fields)], h.next + 1⟩, h.next)

/-- Overwrite the object stored at an existing address. -/
def writeObj (h : Heap) (a : Nat) (fields : HObj) : Heap :=
  ⟨h.objs.map (fun p => if p.1 == a then (p.1, fields) else p), h.next⟩

/-- `d.get(k, dfl)` on an object's fields. -/
def hgetD (o : HObj) (k : String) (dfl : HVal) : HVal :=
  match List.lookup k o with
  | some v => v
  | Option.none => dfl

/-- `d.get(k)` on an object's fields. -/
def hget (o : HObj) (k : String) : HVal :=
  hgetD o k HVal.none

/-- `d[k] = v` on an object's fields. -/
def setKeyH (o : HObj) (k : String) (v : HVal) : HObj :=
  if o.any (fun kv => kv.1 == k) then
    o.map (fun kv => if kv.1 == k then (kv.1, v) else kv)
  else
    o ++ [(k, v)]

/-- `d.pop(k, None)` on an object's fields. -/
def popKeyH (o : HObj) (k : String) : HObj :=
  o.filter (fun kv => !(kv.1 == k))

/-- `d[k] = v` as a heap write. -/
def setFieldH (h : Heap) (a : Nat) (k : String) (v : HVal) : Heap :=
  writeObj h a (setKeyH (getObj h a) k v)

/-- `d.pop(k, None)` as a heap write. -/
def popFieldH (h : Heap) (a : Nat) (k : String) : Heap :=
  writeObj h a (popKeyH (getObj h a) k)

/-- Python truthiness over the heap (a dict ref is truthy iff the referenced
object is nonempty). -/
def hTruthy (h : Heap) : HVal → Bool
  | HVal.none => false
  | HVal.int n => n != 0
  | HVal.str s => !(s == "")
  | HVal.bool b => b
  | HVal.list xs => !xs.isEmpty
  | HVal.ref a => !(getObj h a).isEmpty

/-- Python `a or b` over the heap. -/
def pyOrH (h : Heap) (a b : HVal) : HVal :=
  if hTruthy h a then a else b

/-- Fields of a dict-ref value (`dict(v)` source / `v.items()`). -/
def asRefObj (h : Heap) : HVal → HObj
  | HVal.ref a => getObj h a
  | _ => []

/-- A list value's elements. -/
def asListH : HVal → List HVal
  | HVal.list xs => xs
  | _ => []

/-- The `_drop_none` test over the heap: `None`, or a ref to an empty dict. -/
def dropTestH (h : Heap) : HVal → Bool
  | HVal.none => true
  | HVal.ref a => (getObj h a).isEmpty
  | _ => false

/-- `_drop_none` body (cli.py lines 40-50) over the heap: allocate
`result = {}`, then `result[k] = v` for each surviving item of the argument
object's snapshot. -/
def drop_none_H (h : Heap) (d : HObj) : Heap × Nat :=
  let ar := allocObj h []
  let h2 := d.foldl
    (fun hh kv => if dropTestH hh kv.2 then hh else setFieldH hh ar.2 kv.1 kv.2)
    ar.1
  (h2, ar.2)

/-- A dict literal passed straight to `_drop_none`: allocate the literal,
then prune it. -/
def dropNoneLitH (h : Heap) (fields : HObj) : Heap × Nat :=
  let at_ := allocObj h fields
  drop_none_H at_.1 (getObj at_.1 at_.2)

/-- One team record (lines 98-102): `dict(team)`, `["code"] =`, `.pop`. -/
def teamOut_H (h : Heap) (code : String) (team : HVal) : Heap × Nat :=
  let a1 := allocObj h (asRefObj h team)
  let h2 := setFieldH a1.1 a1.2 "code" (HVal.str code)
  let h3 := popFieldH h2 a1.2 "swimmers"
  (h3, a1.2)

/-- One swimmer record (lines 107-110): `dict(swimmer)`, `["meet_id"] =`. -/
def swimmerOut_H (h : Heap) (meet_id : String) (swimmer : HVal) : Heap × Nat :=
  let a1 := allocObj h (asRefObj h swimmer)
  let v := if pyIsDigit meet_id then HVal.int (Int.ofNat (digitsToNat meet_id))
           else HVal.str meet_id
  let h2 := setFieldH a1.1 a1.2 "meet_id" v
  (h2, a1.2)

/-- Loop skeleton shared by the teams/swimmers/events/entries loops: build
one output object per element, collecting the refs in order. -/
def mapAllocH {α : Type} (f : Heap → α → Heap × Nat) :
    Heap → List α → Heap × List HVal
  | h, [] => (h, [])
  | h, x :: xs =>
    let r1 := f h x
    let r2 := mapAllocH f r1.1 xs
    (r2.1, HVal.ref r1.2 :: r2.2)

/-- The dq candidate of `build_leg` (lines 139-149) over the heap. -/
def dq_H (h : Heap) (entry : HObj) (pfx : String) : Heap × HVal :=
  let dq_info := hget entry (pfx ++ "_dq_info")
  if hTruthy h dq_info then
    let r := dropNoneLitH h
      [("code", hget (asRefObj h dq_info) "code"),
       ("info", hget (asRefObj h dq_info) "info_str")]
    (r.1, HVal.ref r.2)
  else (h, HVal.none)

/-- `build_leg` (lines 138-165) over the heap. -/
def build_leg_H (h : Heap) (entry : HObj) (pfx : String) : Heap × HVal :=
  let rdq := dq_H h entry pfx
  let rleg := dropNoneLitH rdq.1
    [("time", hget entry (pfx ++ "_time")),
     ("course", hget entry (pfx ++ "_course")),
     ("time_code", hget entry (pfx ++ "_time_code")),
     ("dq", rdq.2),
     ("heat", hget entry (pfx ++ "_heat")),
     ("lane", hget entry (pfx ++ "_lane")),
     ("heat_place", hget entry (pfx ++ "_heat_place")),
     ("overall_place", hget entry (pfx ++ "_overall_place")),
     ("date", hget entry (pfx ++ "_date")),
     ("splits", hget entry (pfx ++ "_splits"))]
  (rleg.1,
   if (getObj rleg.1 rleg.2).isEmpty then HVal.none else HVal.ref rleg.2)

/-- One reshaped entry (lines 121-179) over the heap. -/
def entryOut_H (h : Heap) (entryV : HVal) : Heap × Nat :=
  let entry := asRefObj h entryV
  let swimmer_ids :=
    (asListH (pyOrH h (hgetD entry "swimmers" (HVal.list [])) (HVal.list []))).map
      (fun s => hget (asRefObj h s) "meet_id")
  let rseed := dropNoneLitH h
    [("time", hget entry "seed_time"),
     ("course", hget entry "seed_course"),
     ("converted_time", hget entry "converted_seed_time"),
     ("converted_course", hget entry "converted_seed_time_course")]
  let rp := build_leg_H rseed.1 entry "prelim"
  let rs := build_leg_H rp.1 entry "swimoff"
  let rf := build_leg_H rs.1 entry "finals"
  let re := dropNoneLitH rf.1
    [("swimmers", HVal.list swimmer_ids),
     ("relay", HVal.bool (hTruthy rf.1 (hgetD entry "relay" (HVal.bool false)))),
     ("seed", if (getObj rf.1 rseed.2).isEmpty then HVal.none else HVal.ref rseed.2),
     ("prelim", rp.2),
     ("swimoff", rs.2),
     ("finals", rf.2),
     ("event_number", hget entry "event_number")]
  (re.1, re.2)

/-- `x.get(k, {}) or {}` then `.items()`, over the heap. -/
def itemsOrEmpty (h : Heap) (o : HObj) (k : String) : HObj :=
  match List.lookup k o with
  | some v => if hTruthy h v then asRefObj h v else []
  | Option.none => []

/-- `e_map = dict(event); e_map["number"] = event_number` (lines 116-117)
over the heap; returns the address of the copy. -/
def eMap_H (h : Heap) (event_number : String) (event : HVal) : Heap × Nat :=
  let a1 := allocObj h (asRefObj h event)
  (setFieldH a1.1 a1.2 "number" (HVal.str event_number), a1.2)

/-- The event output literal (lines 182-198) read from the `e_map` object;
`relayV` is the already-evaluated `bool(e_map.get("relay", False))`. -/
def eventOutFieldsH (e_map : HObj) (relayV : HVal) (reshaped : List HVal) : HObj :=
  [("number", hget e_map "number"),
   ("distance", hget e_map "distance"),
   ("stroke", hget e_map "stroke"),
   ("course", hget e_map "course"),
   ("date", hget e_map "date_"),
   ("fee", hget e_map "fee"),
   ("gender", hget e_map "gender"),
   ("gender_age", hget e_map "gender_age"),
   ("age_min", hget e_map "age_min"),
   ("age_max", hget e_map "age_max"),
   ("open", hget e_map "open_"),
   ("relay", relayV),
   ("relay_team_id", hget e_map "relay_team_id"),
   ("relay_swim_team_code", hget e_map "relay_swim_team_code"),
   ("entries", HVal.list reshaped)]

/-- One reshaped event (lines 115-200) over the heap. -/
def eventOut_H (h : Heap) (event_number : String) (event : HVal) : Heap × Nat :=
  let r1 := eMap_H h event_number event
  let r2 := mapAllocH entryOut_H r1.1
    (asListH (pyOrH r1.1 (hgetD (getObj r1.1 r1.2) "entries" (HVal.list []))
      (HVal.list [])))
  dropNoneLitH r2.1
    (eventOutFieldsH (getObj r2.1 r1.2)
      (HVal.bool (hTruthy r2.1 (hgetD (getObj r2.1 r1.2) "relay" (HVal.bool false))))
      r2.2)

/-- The `_event_key` comparator on heap items (the key uses only the
identifier string). -/
def eventLeHR (a b : String × HVal) : Prop :=
  keyLe (_event_key (a.1, Val.none)) (_event_key (b.1, Val.none)) = true

instance : DecidableRel eventLeHR := fun a b => by
  unfold eventLeHR
  infer_instance

/-- The file-section literal (lines 86-91) read from the parsed object. -/
def fileFieldsH (po : HObj) : HObj :=
  [("description", hget po "file_description"),
   ("software", hget po "software"),
   ("date_created", hget po "date_created"),
   ("licensee", hget po "licensee")]

/-- The meet output literal (lines 203-216) read from the meet object. -/
def meetOutFieldsH (meetObj : HObj) (tl sl el : List HVal) : HObj :=
  [("name", hget meetObj "name"),
   ("facility", hget meetObj "facility"),
   ("start_date", hget meetObj "start_date"),
   ("end_date", hget meetObj "end_date"),
   ("altitude", hget meetObj "altitude"),
   ("country", hget meetObj "country"),
   ("masters", hget meetObj "masters"),
   ("type", hget meetObj "type_"),
   ("course", hget meetObj "course"),
   ("teams", HVal.list tl),
   ("swimmers", HVal.list sl),
   ("events", HVal.list el)]

/-- `_post_process` (lines 64-219) over the heap: `pa` is the address of the
parsed input tree. -/
def post_process_H (h : Heap) (pa : Nat) : Heap × Nat :=
  let rfs := allocObj h (fileFieldsH (getObj h pa))
  let rmeet := allocObj rfs.1 (asRefObj rfs.1 (hget (getObj rfs.1 pa) "meet"))
  let rteams := mapAllocH (fun hh kv => teamOut_H hh kv.1 kv.2) rmeet.1
    (itemsOrEmpty rmeet.1 (getObj rmeet.1 rmeet.2) "teams")
  let rswimmers := mapAllocH (fun hh kv => swimmerOut_H hh kv.1 kv.2) rteams.1
    (itemsOrEmpty rteams.1 (getObj rteams.1 rmeet.2) "swimmers")
  let revents := mapAllocH (fun hh kv => eventOut_H hh kv.1 kv.2) rswimmers.1
    (List.insertionSort eventLeHR
      (itemsOrEmpty rswimmers.1 (getObj rswimmers.1 rmeet.2) "events"))
  let rmo := dropNoneLitH revents.1
    (meetOutFieldsH (getObj revents.1 rmeet.2) rteams.2 rswimmers.2 revents.2)
  let rfsp := drop_none_H rmo.1 (getObj rmo.1 rfs.2)
  allocObj rfsp.1 [("file", HVal.ref rfsp.2), ("meet", HVal.ref rmo.2)]

/-- The run extends the heap without touching any address below `n`. -/
def PreservesBelow (h h' : Heap) (n : Nat) : Prop :=
  n ≤ h'.next ∧ ∀ a, a < n → List.lookup a h'.objs = List.lookup a h.objs

theorem preservesBelow_refl (h : Heap) (n : Nat) (hn : n ≤ h.next) :
    PreservesBelow h h n :=
  ⟨hn, fun _ _ => rfl⟩

theorem preservesBelow_trans {h1 h2 h3 : Heap} {n : Nat}
    (p : PreservesBelow h1 h2 n) (q : PreservesBelow h2 h3 n) :
    PreservesBelow h1 h3 n :=
  ⟨q.1, fun a ha => (q.2 a ha).trans (p.2 a ha)⟩

theorem lookup_nat_append_one_ne (l : List (Nat × HObj)) (t : Nat) (o : HObj)
    (a : Nat) (ha : a ≠ t) :
    List.lookup a (l ++ [(t, o)]) = List.lookup a l := by
  induction l with
  | nil =>
    have hb : (a == t) = false := by simp [ha]
    simp [List.lookup_cons, hb]
  | cons hd tl ih =>
    obtain ⟨k1, v1⟩ := hd
    simp only [List.cons_append, List.lookup_cons]
    cases hkk : (a == k1) with
    | true => rfl
    | false => exact ih

theorem lookup_map_write_ne (l : List (Nat × HObj)) (t : Nat) (o : HObj)
    (a : Nat) (ha : a ≠ t) :
    List.lookup a (l.map (fun p => if p.1 == t then (p.1, o) else p))
      = List.lookup a l := by
  induction l with
  | nil => rfl
  | cons hd tl ih =>
    obtain ⟨k1, v1⟩ := hd
    by_cases hk1 : k1 = t
    · subst hk1
      have hb2 : (a == k1) = false := by simp [ha]
      simp only [List.map, beq_self_eq_true, if_true, List.lookup_cons, hb2]
      exact ih
    · have hb : (k1 == t) = false := by simp [hk1]
      simp only [List.map, hb, Bool.false_eq_true, if_false, List.lookup_cons]
      cases hkk1 : (a == k1) with
      | true => rfl
      | false => exact ih

theorem pb_alloc (h : Heap) (fields : HObj) (n : Nat) (hn : n ≤ h.next) :
    PreservesBelow h (allocObj h fields).1 n := by
  refine ⟨?_, ?_⟩
  · show n ≤ h.next + 1
    omega
  · intro a ha
    exact lookup_nat_append_one_ne _ _ _ _ (by omega)

theorem pb_write (h : Heap) (t : Nat) (o : HObj) (n : Nat)
    (hn : n ≤ h.next) (ht : n ≤ t) :
    PreservesBelow h (writeObj h t o) n := by
  refine ⟨hn, ?_⟩
  intro a ha
  exact lookup_map_write_ne _ _ _ _ (by omega)

theorem pb_setField (h : Heap) (t : Nat) (k : String) (v : HVal) (n : Nat)
    (hn : n ≤ h.next) (ht : n ≤ t) :
    PreservesBelow h (setFieldH h t k v) n :=
  pb_write h t _ n hn ht

theorem pb_popField (h : Heap) (t : Nat) (k : String) (n : Nat)
    (hn : n ≤ h.next) (ht : n ≤ t) :
    PreservesBelow h (popFieldH h t k) n :=
  pb_write h t _ n hn ht

theorem pb_drop_fold (r : Nat) (d : HObj) :
    ∀ (h : Heap) (n : Nat), n ≤ h.next → n ≤ r →
    PreservesBelow h
      (d.foldl (fun hh kv => if dropTestH hh kv.2 then hh
                             else setFieldH hh r kv.1 kv.2) h) n := by
  induction d with
  | nil =>
    intro h n hn _
    exact preservesBelow_refl h n hn
  | cons kv tl ih =>
    intro h n hn hr
    simp only [List.foldl_cons]
    have step : PreservesBelow h
        (if dropTestH h kv.2 then h else setFieldH h r kv.1 kv.2) n := by
      cases hdt : dropTestH h kv.2 with
      | true => simpa [hdt] using preservesBelow_refl h n hn
      | false => simpa [hdt] using pb_setField h r kv.1 kv.2 n hn hr
    exact preservesBelow_trans step (ih _ n step.1 hr)

theorem pb_drop_none (h : Heap) (d : HObj) (n : Nat) (hn : n ≤ h.next) :
    PreservesBelow h (drop_none_H h d).1 n := by
  simp only [drop_none_H]
  exact preservesBelow_trans (pb_alloc h [] n hn)
    (pb_drop_fold (allocObj h []).2 d (allocObj h []).1 n (pb_alloc h [] n hn).1 hn)

theorem pb_dropNoneLit (h : Heap) (fields : HObj) (n : Nat) (hn : n ≤ h.next) :
    PreservesBelow h (dropNoneLitH h fields).1 n := by
  simp only [dropNoneLitH]
  exact preservesBelow_trans (pb_alloc h fields n hn)
    (pb_drop_none _ _ n (pb_alloc h fields n hn).1)

theorem pb_teamOut (h : Heap) (code : String) (team : HVal) (n : Nat)
    (hn : n ≤ h.next) :
    PreservesBelow h (teamOut_H h code team).1 n := by
  simp only [teamOut_H]
  have p1 := pb_alloc h (asRefObj h team) n hn
  have p2 := pb_setField (allocObj h (asRefObj h team)).1
    (allocObj h (asRefObj h team)).2 "code" (HVal.str code) n p1.1 hn
  have p3 := pb_popField _ (allocObj h (asRefObj h team)).2 "swimmers" n p2.1 hn
  exact preservesBelow_trans (preservesBelow_trans p1 p2) p3

theorem pb_swimmerOut (h : Heap) (meet_id : String) (swimmer : HVal) (n : Nat)
    (hn : n ≤ h.next) :
    PreservesBelow h (swimmerOut_H h meet_id swimmer).1 n := by
  simp only [swimmerOut_H]
  have p1 := pb_alloc h (asRefObj h swimmer) n hn
  exact preservesBelow_trans p1
    (pb_setField (allocObj h (asRefObj h swimmer)).1
      (allocObj h (asRefObj h swimmer)).2 "meet_id" _ n p1.1 hn)

theorem pb_mapAllocH {α : Type} (f : Heap → α → Heap × Nat)
    (hf : ∀ (hh : Heap) (x : α) (n : Nat), n ≤ hh.next →
        PreservesBelow hh (f hh x).1 n) :
    ∀ (l : List α) (h : Heap) (n : Nat), n ≤ h.next →
      PreservesBelow h (mapAllocH f h l).1 n := by
  intro l
  induction l with
  | nil =>
    intro h n hn
    exact preservesBelow_refl h n hn
  | cons x xs ih =>
    intro h n hn
    simp only [mapAllocH]
    exact preservesBelow_trans (hf h x n hn) (ih _ n (hf h x n hn).1)

theorem pb_dq (h : Heap) (entry : HObj) (pfx : String) (n : Nat)
    (hn : n ≤ h.next) :
    PreservesBelow h (dq_H h entry pfx).1 n := by
  simp only [dq_H]
  cases ht : hTruthy h (hget entry (pfx ++ "_dq_info")) with
  | true => simpa [ht] using pb_dropNoneLit h _ n hn
  | false => simpa [ht] using preservesBelow_refl h n hn

theorem pb_build_leg (h : Heap) (entry : HObj) (pfx : String) (n : Nat)
    (hn : n ≤ h.next) :
    PreservesBelow h (build_leg_H h entry pfx).1 n := by
  simp only [build_leg_H]
  have p1 := pb_dq h entry pfx n hn
  exact preservesBelow_trans p1 (pb_dropNoneLit _ _ n p1.1)

theorem pb_entryOut (h : Heap) (entryV : HVal) (n : Nat) (hn : n ≤ h.next) :
    PreservesBelow h (entryOut_H h entryV).1 n := by
  simp only [entryOut_H]
  have p1 := pb_dropNoneLit h
    [("time", hget (asRefObj h entryV) "seed_time"),
     ("course", hget (asRefObj h entryV) "seed_course"),
     ("converted_time", hget (asRefObj h entryV) "converted_seed_time"),
     ("converted_course", hget (asRefObj h entryV) "converted_seed_time_course")]
    n hn
  have p2 := pb_build_leg _ (asRefObj h entryV) "prelim" n p1.1
  have p3 := pb_build_leg _ (asRefObj h entryV) "swimoff" n p2.1
  have p4 := pb_build_leg _ (asRefObj h entryV) "finals" n p3.1
  exact preservesBelow_trans (preservesBelow_trans
    (preservesBelow_trans (preservesBelow_trans p1 p2) p3) p4)
    (pb_dropNoneLit _ _ n p4.1)

theorem preservesBelow_trans2 {h1 h2 h3 : Heap} {n : Nat}
    (p : PreservesBelow h1 h2 n)
    (q : n ≤ h2.next → PreservesBelow h2 h3 n) :
    PreservesBelow h1 h3 n :=
  preservesBelow_trans p (q p.1)


theorem pb_eMap (h : Heap) (event_number : String) (event : HVal) (n : Nat)
    (hn : n ≤ h.next) :
    PreservesBelow h (eMap_H h event_number event).1 n := by
  simp only [eMap_H]
  have p1 := pb_alloc h (asRefObj h event) n hn
  exact preservesBelow_trans p1
    (pb_setField _ (allocObj h (asRefObj h event)).2 "number"
      (HVal.str event_number) n p1.1 hn)

theorem pb_eventOut (h : Heap) (event_number : String) (event : HVal) (n : Nat)
    (hn : n ≤ h.next) :
    PreservesBelow h (eventOut_H h event_number event).1 n := by
  simp only [eventOut_H]
  generalize hg1 : eMap_H h event_number event = r1
  have p1 : PreservesBelow h r1.1 n := by
    rw [← hg1]
    exact pb_eMap h event_number event n hn
  generalize hg2 : mapAllocH entryOut_H r1.1
      (asListH (pyOrH r1.1 (hgetD (getObj r1.1 r1.2) "entries" (HVal.list []))
        (HVal.list []))) = r2
  have p2 : PreservesBelow r1.1 r2.1 n := by
    rw [← hg2]
    exact pb_mapAllocH entryOut_H pb_entryOut _ _ n p1.1
  exact preservesBelow_trans (preservesBelow_trans p1 p2)
    (pb_dropNoneLit _ _ n p2.1)

theorem pb_post_process (h : Heap) (pa : Nat) (n : Nat) (hn : n ≤ h.next) :
    PreservesBelow h (post_process_H h pa).1 n := by
  simp only [post_process_H]
  generalize hg1 : allocObj h (fileFieldsH (getObj h pa)) = r1
  have p1 : PreservesBelow h r1.1 n := by
    rw [← hg1]
    exact pb_alloc _ _ n hn
  generalize hg2 : allocObj r1.1 (asRefObj r1.1 (hget (getObj r1.1 pa) "meet")) = r2
  have p2 : PreservesBelow r1.1 r2.1 n := by
    rw [← hg2]
    exact pb_alloc _ _ n p1.1
  generalize hg3 : mapAllocH (fun hh kv => teamOut_H hh kv.1 kv.2) r2.1
      (itemsOrEmpty r2.1 (getObj r2.1 r2.2) "teams") = r3
  have p3 : PreservesBelow r2.1 r3.1 n := by
    rw [← hg3]
    exact pb_mapAllocH _ (fun hh x m hm => pb_teamOut hh x.1 x.2 m hm) _ _ n p2.1
  generalize hg4 : mapAllocH (fun hh kv => swimmerOut_H hh kv.1 kv.2) r3.1
      (itemsOrEmpty r3.1 (getObj r3.1 r2.2) "swimmers") = r4
  have p4 : PreservesBelow r3.1 r4.1 n := by
    rw [← hg4]
    exact pb_mapAllocH _ (fun hh x m hm => pb_swimmerOut hh x.1 x.2 m hm) _ _ n p3.1
  generalize hg5 : mapAllocH (fun hh kv => eventOut_H hh kv.1 kv.2) r4.1
      (List.insertionSort eventLeHR
        (itemsOrEmpty r4.1 (getObj r4.1 r2.2) "events")) = r5
  have p5 : PreservesBelow r4.1 r5.1 n := by
    rw [← hg5]
    exact pb_mapAllocH _ (fun hh x m hm => pb_eventOut hh x.1 x.2 m hm) _ _ n p4.1
  generalize hg6 : dropNoneLitH r5.1
      (meetOutFieldsH (getObj r5.1 r2.2) r3.2 r4.2 r5.2) = r6
  have p6 : PreservesBelow r5.1 r6.1 n := by
    rw [← hg6]
    exact pb_dropNoneLit _ _ n p5.1
  generalize hg7 : drop_none_H r6.1 (getObj r6.1 r1.2) = r7
  have p7 : PreservesBelow r6.1 r7.1 n := by
    rw [← hg7]
    exact pb_drop_none _ _ n p6.1
  exact preservesBelow_trans (preservesBelow_trans (preservesBelow_trans
    (preservesBelow_trans (preservesBelow_trans (preservesBelow_trans
      (preservesBelow_trans p1 p2) p3) p4) p5) p6) p7)
    (pb_alloc _ _ n p7.1)

/-- **C8.** The reshape never mutates its input: in the explicit-heap model,
`_drop_none` builds a fresh result object and leaves every pre-existing
object — in particular its argument — unchanged, and a whole `_post_process`
run leaves every address that existed before the call (the entire source
tree: meet, teams, swimmers, events, entries) bound to exactly the object it
held before. -/
theorem post_process_no_mutation (h : Heap) (pa : Nat) :
    (∀ (d : HObj) (a : Nat), a < h.next →
        List.lookup a (drop_none_H h d).1.objs = List.lookup a h.objs)
    ∧ (∀ a : Nat, a < h.next →
        List.lookup a (post_process_H h pa).1.objs = List.lookup a h.objs) := by
  constructor
  · intro d a ha
    exact (pb_drop_none h d h.next le_rfl).2 a ha
  · intro a ha
    exact (pb_post_process h pa h.next le_rfl).2 a ha

/-- A concrete four-object input tree: parsed ↦ meet ↦ teams ↦ one team. -/
def exHeapTree : Heap :=
  ⟨[(0, [("software", HVal.str "HT"), ("meet", HVal.ref 1)]),
    (1, [("teams", HVal.ref 2)]),
    (2, [("ABC", HVal.ref 3)]),
    (3, [("name", HVal.str "Acme"), ("swimmers", HVal.list [])])], 4⟩

/-- Witness for C8: after a full reshape of `exHeapTree` the team object —
whose `swimmers` field the reshape pops on the output COPY — still holds its
original fields, and pruning a record leaves the pre-existing objects as
they were. -/
theorem post_process_no_mutation_witness :
    List.lookup 3 (post_process_H exHeapTree 0).1.objs
        = some [("name", HVal.str "Acme"), ("swimmers", HVal.list [])]
    ∧ List.lookup 0 (drop_none_H exHeapTree [("x", HVal.none)]).1.objs
        = some [("software", HVal.str "HT"), ("meet", HVal.ref 1)] := by
  constructor
  · rw [(post_process_no_mutation exHeapTree 0).2 3 (by decide)]
    rfl
  · rw [(post_process_no_mutation exHeapTree 0).1 [("x", HVal.none)] 0 (by decide)]
    rfl
